import Mathlib

/-!
Verification development for the partitioned-parquet price store
(libs/adapters/repo_parquet_partitioned.py and its contracts in
libs/contracts/storage_meta.py, libs/contracts/prices_daily.py,
libs/contracts/job_models.py).

The embedding models a pandas DataFrame as a Lean list of rows, in the
caller-supplied order.  A stored partition row is reduced to its
primary-key string (the "||"-join of the stringified primary-key columns,
as computed by astype(str).agg("||".join, axis=1)) together with the list
of its non-key cells in column order.  Cell values are modelled with a
decidable value type in which a missing value (NaN / pd.NA) is Cell.n none.
File-system effects of upsert_prices are modelled as an explicit event
trace; manifest JSONL lines are modelled as parsed entries, blank lines,
or malformed (non-JSON) lines.
-/

/-- Characters stripped by Python str.strip(): space, tab, newline,
carriage return, vertical tab, form feed. -/
def isStripChar (c : Char) : Bool :=
  c = ' ' || c = '\t' || c = '\n' || c = '\r' || c = '\x0b' || c = '\x0c'

/-- Left part of Python str.strip(). -/
def stripLeftChars (l : List Char) : List Char := l.dropWhile isStripChar

/-- Right part of Python str.strip(). -/
def stripRightChars (l : List Char) : List Char :=
  (l.reverse.dropWhile isStripChar).reverse

/-- Python str.strip(): drop leading and trailing whitespace. -/
def stripChars (l : List Char) : List Char := stripRightChars (stripLeftChars l)

/-- Models the normalization str(v).strip().upper() used by the
StorageReport.norm_symbol validator and by _rows_to_df. -/
def normSymbol (s : String) : String :=
  String.mk ((stripChars s.data).map Char.toUpper)

/-- Calendar date (datetime.date): year, month, day. -/
structure PDate where
  y : Nat
  m : Nat
  d : Nat
deriving DecidableEq

/-- One DataFrame cell: a string column value, a date column value, or a
numeric measure that may be missing (NaN / pd.NA is Cell.n none). -/
inductive Cell where
  | s (v : String)
  | d (v : PDate)
  | n (v : Option Int)
deriving DecidableEq

/-- One row of a partition DataFrame, reduced to its primary-key string
and its non-key cells in column order. -/
structure Row where
  key : String
  vals : List Cell
deriving DecidableEq

/-- Errors raised by the adapter: a malformed manifest line
(json.JSONDecodeError escaping _manifest_lookup), the missing
primary-key-column ValueError, the pandas ValueError raised when _upsert
compares non-identically-labeled frames, and the pydantic validation
errors of StorageReport. -/
inductive RepoError where
  | corruptManifestLine
  | missingPrimaryKeyColumn (col : String)
  | pandasCompareMismatch
  | badLocation
  | badSymbol
  | negativeCount
  | countMismatch
deriving DecidableEq

/-- Is the cell a missing value (pandas isna)? -/
def cellIsNA : Cell → Bool
  | .n none => true
  | _ => false

/-- Pandas element-wise comparison new != old: any comparison involving a
missing value yields True. -/
def pandasNe (a b : Cell) : Bool :=
  if cellIsNA a || cellIsNA b then true else decide (a ≠ b)

/-- The _upsert difference mask for one cell:
(new != old) and not (new.isna() and old.isna()), i.e. NULL-aware
inequality where two missing values are equal. -/
def cellDiff (a b : Cell) : Bool :=
  pandasNe a b && !(cellIsNA a && cellIsNA b)

/-- Aligns the old row's cells to the new row's columns, filling columns
missing on the old side with pd.NA (comp_old[col] = pd.NA followed by
comp_old = comp_old[comp_new.columns] in _upsert). -/
def alignedOld (vn vo : List Cell) : List Cell :=
  (List.range vn.length).map (fun i => vo.getD i (Cell.n none))

/-- The per-row update test of _upsert: some non-key column differs,
NULL-awarely (diffs.any(axis=1)). -/
def rowDiffers (vn vo : List Cell) : Bool :=
  (vn.zip (alignedOld vn vo)).any (fun p => cellDiff p.1 p.2)

/-- Primary-key strings of a DataFrame, in row order
(astype(str).agg("||".join, axis=1)). -/
def keysOf (df : List Row) : List String := df.map Row.key

/-- Models drop_duplicates(subset=pk, keep="last"): keep a row iff no
later row carries the same primary-key string. -/
def dedupKeepLast : List Row → List Row
  | [] => []
  | r :: rs =>
    if rs.any (fun x => x.key == r.key) then dedupKeepLast rs
    else r :: dedupKeepLast rs

/-- Helper for dedupKeepLast reasoning and for drop_duplicates with
keep="first": keep a row iff its key was not seen earlier. -/
def dedupKeepFirstAux (seen : List String) : List Row → List Row
  | [] => []
  | r :: rs =>
    if seen.contains r.key then dedupKeepFirstAux seen rs
    else r :: dedupKeepFirstAux (r.key :: seen) rs

/-- Models drop_duplicates(subset=pk, keep="first"). -/
def dedupKeepFirst (df : List Row) : List Row := dedupKeepFirstAux [] df

/-- First stored row carrying the given primary-key string. -/
def findByKey (df : List Row) (k : String) : Option Row :=
  df.find? (fun r => r.key == k)

/-- Does the incoming row differ, NULL-awarely, from the existing row with
the same primary key (comparison step of _upsert)? -/
def newRowDiffers (df_old : List Row) (r : Row) : Bool :=
  match findByKey df_old r.key with
  | some o => rowDiffers r.vals o.vals
  | none => false

/-- Models PricesRepoParquetPartitioned._upsert.  Returns
(merged, inserted, updated, skipped).  When the existing frame is empty
the incoming frame is returned as-is (df_new.copy()); otherwise inserted
rows are those whose key is absent from the existing keys, the rows with
intersecting keys replace the old ones, and updated counts the
intersecting rows whose non-key columns differ NULL-awarely.  The error
branch models the ValueError pandas raises from comp_new != comp_old when
the two intersections are not identically labeled (for example when the
incoming batch repeats a primary key that also exists in the partition). -/
def upsertMerge (df_old df_new : List Row) :
    Except RepoError (List Row × Nat × Nat × Nat) :=
  if df_old.isEmpty then
    .ok (df_new, df_new.length, 0, 0)
  else
    let key_old := keysOf df_old
    let key_new := keysOf df_new
    let df_ins := df_new.filter (fun r => !(key_old.contains r.key))
    let df_old_keep := df_old.filter (fun r => !(key_new.contains r.key))
    let df_inter_new := df_new.filter (fun r => key_old.contains r.key)
    let df_old_inter := df_old.filter (fun r => key_new.contains r.key)
    if !df_inter_new.isEmpty && !((keysOf df_inter_new).isPerm (keysOf df_old_inter)) then
      .error .pandasCompareMismatch
    else
      let updated := (df_inter_new.filter (fun r => newRowDiffers df_old r)).length
      let inserted := df_ins.length
      let skipped := df_new.length - inserted - updated
      let merged := dedupKeepLast (df_old_keep ++ df_inter_new ++ df_ins)
      .ok (merged, inserted, updated, skipped)

/-- Models PricesRepoParquetPartitioned._append: only rows with new
primary keys are inserted, existing rows are never updated, and the final
drop_duplicates uses keep="first". -/
def appendMerge (df_old df_new : List Row) : List Row × Nat × Nat × Nat :=
  if df_old.isEmpty then
    (df_new, df_new.length, 0, 0)
  else
    let key_old := keysOf df_old
    let df_ins := df_new.filter (fun r => !(key_old.contains r.key))
    let merged := dedupKeepFirst (df_old ++ df_ins)
    (merged, df_ins.length, 0, df_new.length - df_ins.length)

/-- Models PricesRepoParquetPartitioned._insert_overwrite: existing rows
whose key appears in the incoming batch are dropped, the incoming batch is
appended, and duplicates are resolved with keep="last". -/
def insertOverwriteMerge (df_old df_new : List Row) : List Row × Nat × Nat × Nat :=
  if df_old.isEmpty then
    (df_new, df_new.length, 0, 0)
  else
    let key_new := keysOf df_new
    let df_old_keep := df_old.filter (fun r => !(key_new.contains r.key))
    let merged := dedupKeepLast (df_old_keep ++ df_new)
    (merged, df_new.length, 0, 0)

/-- Write modes of libs/contracts/job_models.py. -/
inductive WriteMode where
  | upsert
  | append
  | insert_overwrite
deriving DecidableEq

/-- Storage engines of libs/contracts/job_models.py. -/
inductive StorageEngine where
  | parquet
  | clickhouse
  | postgres
deriving DecidableEq

/-- Data sources of libs/contracts/job_models.py. -/
inductive DataSource where
  | yfinance
  | alpaca
deriving DecidableEq

/-- One PriceRow (libs/contracts/prices_daily.py) as it sits in the
DataFrame built by _rows_to_df.  The measure columns open, high, low,
close, adj_close, volume are modelled as decidable values that may be
missing once stored (field names carry an f_ prefix because open is a
Lean keyword). -/
structure PRow where
  date : PDate
  symbol : String
  f_open : Option Int
  f_high : Option Int
  f_low : Option Int
  f_close : Option Int
  f_adj_close : Option Int
  f_volume : Option Int
deriving DecidableEq

/-- Column order of PriceRow.model_dump(), i.e. the DataFrame columns of a
non-empty batch. -/
def priceColumns : List String :=
  ["date", "symbol", "open", "high", "low", "close", "adj_close", "volume"]

/-- Cell of a named column of a PriceRow row. -/
def colCell (r : PRow) : String → Cell
  | "date" => .d r.date
  | "symbol" => .s r.symbol
  | "open" => .n r.f_open
  | "high" => .n r.f_high
  | "low" => .n r.f_low
  | "close" => .n r.f_close
  | "adj_close" => .n r.f_adj_close
  | "volume" => .n r.f_volume
  | _ => .n none

/-- Zero padding used in formatting a month or day to two digits. -/
def pad2 (n : Nat) : String := if n < 10 then "0" ++ toString n else toString n

/-- ISO string of a date, as str() of a datetime.date renders it. -/
def pdateStr (dt : PDate) : String :=
  toString dt.y ++ "-" ++ pad2 dt.m ++ "-" ++ pad2 dt.d

/-- Stringification astype(str) of one cell, used to build key strings. -/
def cellStr : Cell → String
  | .s v => v
  | .d v => pdateStr v
  | .n (some i) => toString i
  | .n none => "nan"

/-- Join underlying "||".join(...) of the key-building aggregation. -/
def keyJoin : List String → String
  | [] => ""
  | [x] => x
  | x :: xs => x ++ "||" ++ keyJoin xs

/-- Primary-key string of a PriceRow under the given primary-key columns
(df[pk].astype(str).agg("||".join, axis=1)). -/
def keyOf (pk : List String) (r : PRow) : String :=
  keyJoin (pk.map (fun c => cellStr (colCell r c)))

/-- View of a PriceRow as a merge-layer Row: its primary-key string plus
its non-key cells in DataFrame column order. -/
def toRow (pk : List String) (r : PRow) : Row :=
  { key := keyOf pk r
    vals := (priceColumns.filter (fun c => !(pk.contains c))).map (colCell r) }

/-- Models _rows_to_df: the symbol column is re-normalized with
str.strip().str.upper() (the date column is already a date). -/
def rowsToDf (rows : List PRow) : List PRow :=
  rows.map (fun r => { r with symbol := normSymbol r.symbol })

/-- Columns of the DataFrame built from the batch: pd.DataFrame([]) has no
columns at all, a non-empty batch has the PriceRow columns. -/
def dfColumns (dfN : List PRow) : List String :=
  if dfN.isEmpty then [] else priceColumns

/-- Models PricesRepoParquetPartitioned._infer_symbol. -/
def inferSymbol (dfN : List PRow) : String :=
  if dfN.isEmpty then "UNKNOWN"
  else
    match (dfN.map PRow.symbol).dedup with
    | [s] => s
    | _ => "MULTI"

/-- Fields of a StorageReport (libs/contracts/storage_meta.py), which is
also the shape of one serialized manifest record (model_dump).  The ts
timestamp field is omitted: no claim concerns it. -/
structure ReportFields where
  run_id : String
  idempotency_key : Option String
  engine : StorageEngine
  source : DataSource
  location : String
  symbol : String
  primary_key : List String
  layout_version : Int
  write_mode : WriteMode
  rows : Int
  inserted : Int
  updated : Int
  skipped : Int
deriving DecidableEq

/-- Models pydantic construction StorageReport(...): the location
min_length check, the norm_symbol field validator (strip+upper, must be
non-empty), the ge=0 bounds of the four counts, and the check_counts model
validator requiring rows == inserted + updated + skipped.  Construction
raises (returns an error) iff some validator fails; on success the stored
symbol is the normalized one. -/
def mkStorageReport (f : ReportFields) : Except RepoError ReportFields :=
  if f.location.length < 1 then .error .badLocation
  else if normSymbol f.symbol = "" then .error .badSymbol
  else if f.rows < 0 || f.inserted < 0 || f.updated < 0 || f.skipped < 0 then
    .error .negativeCount
  else if f.rows ≠ f.inserted + f.updated + f.skipped then .error .countMismatch
  else .ok { f with symbol := normSymbol f.symbol }

/-- One line of the manifest JSONL file: a parseable record (the
model_dump of a previously written StorageReport), a blank line, or a
malformed line on which json.loads raises. -/
inductive ManifestLine where
  | entry (fields : ReportFields)
  | blank
  | malformed
deriving DecidableEq

/-- Models PricesRepoParquetPartitioned._manifest_lookup: scan the lines
in order, skip blank lines, raise on a malformed line (json.loads's
JSONDecodeError is not caught; only FileNotFoundError is), and return the
first record whose idempotency_key equals the probe.  A missing manifest
file is modelled as the empty line list. -/
def manifestLookup : List ManifestLine → String → Except RepoError (Option ReportFields)
  | [], _ => .ok none
  | ManifestLine.blank :: rest, k => manifestLookup rest k
  | ManifestLine.malformed :: _, _ => .error .corruptManifestLine
  | ManifestLine.entry f :: rest, k =>
    if f.idempotency_key = some k then .ok (some f) else manifestLookup rest k

/-- Models _report_from_manifest: StorageReport(**obj) re-runs the
pydantic validators on the stored record. -/
def reportFromManifest (f : ReportFields) : Except RepoError ReportFields :=
  mkStorageReport f

/-- Models _manifest_write: look the key up again (propagating a lookup
failure), do nothing if present, else append one line. -/
def manifestWrite (m : List ManifestLine) (k : String) (rep : ReportFields) :
    Except RepoError (List ManifestLine) :=
  match manifestLookup m k with
  | .error e => .error e
  | .ok (some _) => .ok m
  | .ok none => .ok (m ++ [ManifestLine.entry rep])

/-- Identity of one partition data file as laid out by
LakehousePaths.get_data_file: the optional source segment (present only
for the bronze layer), the uppercased symbol, and the (year, month) of
the partition date. -/
structure PartKey where
  src : Option DataSource
  symbol : String
  year : Nat
  month : Nat
deriving DecidableEq

/-- The store object: layer, dataset and base directory, from which the
location string of the receipt is formed. -/
structure Store where
  layer : String
  dataset : String
  base_dir : String
deriving DecidableEq

/-- Location recorded in receipts: f"{base_dir}/{layer}/{dataset}". -/
def Store.location (s : Store) : String :=
  s.base_dir ++ "/" ++ s.layer ++ "/" ++ s.dataset

/-- Persistent state owned by the adapter: the manifest file's lines and
the partition files' contents keyed by partition identity. -/
structure RepoState where
  manifest : List ManifestLine
  parts : List (PartKey × List Row)
deriving DecidableEq

/-- Content of a partition file, when it exists. -/
def partsGet (ps : List (PartKey × List Row)) (k : PartKey) : Option (List Row) :=
  (ps.find? (fun e => e.1 == k)).map Prod.snd

/-- Overwrite (or create) one partition file's content. -/
def partsSet (ps : List (PartKey × List Row)) (k : PartKey) (v : List Row) :
    List (PartKey × List Row) :=
  if ps.any (fun e => e.1 == k) then ps.map (fun e => if e.1 == k then (k, v) else e)
  else ps ++ [(k, v)]

/-- File-system events on partition data files.  The code only ever emits
readPartition (pd.read_parquet of an existing file) and
writePartitionDirect (merged.to_parquet(file_path), an in-place overwrite
of the destination path); writeTempFile and renameTempOver are the events
an atomic write-temp-then-rename replacement would emit, and are part of
the vocabulary so that the atomic-replace property can be stated. -/
inductive FsEvent where
  | readPartition (p : PartKey)
  | writePartitionDirect (p : PartKey)
  | writeTempFile (p : PartKey)
  | renameTempOver (p : PartKey)
deriving DecidableEq

/-- Group key (symbol, year, month) of one row, as produced by the
groupby(["symbol", "_year", "_month"]) of upsert_prices. -/
def tripOf (r : PRow) : String × Nat × Nat := (r.symbol, r.date.y, r.date.m)

/-- Lexicographic comparison of char lists, used to model the sorted
group-key order of pandas groupby. -/
def charListLE : List Char → List Char → Bool
  | [], _ => true
  | _ :: _, [] => false
  | a :: as, b :: bs => if a = b then charListLE as bs else decide (a < b)

/-- String order for group sorting. -/
def strLE (a b : String) : Bool := charListLE a.data b.data

/-- Order on group keys (symbol, year, month). -/
def tripLE (a b : String × Nat × Nat) : Bool :=
  if a.1 = b.1 then
    if a.2.1 = b.2.1 then a.2.2 ≤ b.2.2 else a.2.1 < b.2.1
  else strLE a.1 b.1

/-- Stable insertion into a sorted list. -/
def insertSorted {α : Type} (le : α → α → Bool) (a : α) : List α → List α
  | [] => [a]
  | b :: l => if le a b then a :: b :: l else b :: insertSorted le a l

/-- Insertion sort, modelling the sorted group-key enumeration of pandas
groupby (the group order does not affect any property proved below). -/
def sortByLE {α : Type} (le : α → α → Bool) : List α → List α
  | [] => []
  | a :: l => insertSorted le a (sortByLE le l)

/-- Distinct group keys of the batch, in the sorted order pandas groupby
enumerates them. -/
def groupsOf (dfN : List PRow) : List (String × Nat × Nat) :=
  sortByLE tripLE (dfN.map tripOf).dedup

/-- Partition file targeted by a group: the source path segment exists
only in the bronze layer (LakehousePaths.get_partition_path). -/
def partKeyFor (store : Store) (src : Option DataSource) (g : String × Nat × Nat) : PartKey :=
  { src := if store.layer = "bronze" then src else none
    symbol := g.1
    year := g.2.1
    month := g.2.2 }

/-- Dispatch on write_mode inside the partition loop of upsert_prices. -/
def runMerge (mode : WriteMode) (df_old df_new : List Row) :
    Except RepoError (List Row × Nat × Nat × Nat) :=
  match mode with
  | .upsert => upsertMerge df_old df_new
  | .append => .ok (appendMerge df_old df_new)
  | .insert_overwrite => .ok (insertOverwriteMerge df_old df_new)

/-- The per-partition loop of upsert_prices: for each group key in order,
take the group's rows (in batch order), read the existing partition file
if it exists, merge according to the write mode, write the merged frame
back over the partition file, and accumulate the three counters. -/
def processGroups (store : Store) (src : Option DataSource) (pk : List String)
    (mode : WriteMode) (dfN : List PRow) :
    List (String × Nat × Nat) → List (PartKey × List Row) →
    Except RepoError (List (PartKey × List Row) × List FsEvent × Nat × Nat × Nat)
  | [], parts => .ok (parts, [], 0, 0, 0)
  | g :: gs, parts =>
    let pdf := (dfN.filter (fun r => tripOf r == g)).map (toRow pk)
    let pkey := partKeyFor store src g
    let df_old := (partsGet parts pkey).getD []
    let evR : List FsEvent :=
      match partsGet parts pkey with
      | some _ => [FsEvent.readPartition pkey]
      | none => []
    match runMerge mode df_old pdf with
    | .error e => .error e
    | .ok (merged, ins, upd, skip) =>
      match processGroups store src pk mode dfN gs (partsSet parts pkey merged) with
      | .error e => .error e
      | .ok (parts', evs, i2, u2, s2) =>
        .ok (parts', evR ++ [FsEvent.writePartitionDirect pkey] ++ evs,
          ins + i2, upd + u2, skip + s2)

/-- Report fields assembled by upsert_prices before validation: run_id and
idempotency key from the call, engine parquet, source defaulted to
yfinance, the store's location, the inferred symbol, and the aggregated
counters with rows equal to the DataFrame length. -/
def reportCandidate (store : Store) (pk : List String) (mode : WriteMode)
    (layout_version : Int) (idempotency_key run_id : String) (src : Option DataSource)
    (dfN : List PRow) (ins upd skip : Nat) : ReportFields :=
  { run_id := run_id
    idempotency_key := some idempotency_key
    engine := StorageEngine.parquet
    source := src.getD DataSource.yfinance
    location := store.location
    symbol := inferSymbol dfN
    primary_key := pk
    layout_version := layout_version
    write_mode := mode
    rows := (dfN.length : Int)
    inserted := (ins : Int)
    updated := (upd : Int)
    skipped := (skip : Int) }

/-- Models PricesRepoParquetPartitioned.upsert_prices.  Returns the
receipt, the new persistent state, and the trace of partition-file events:
look the idempotency key up in the manifest and return the reconstructed
receipt on a hit; otherwise normalize the batch, validate the primary-key
columns against the DataFrame columns, merge partition by partition,
build the receipt through the StorageReport validators, and append it to
the manifest. -/
def upsertPrices (store : Store) (st : RepoState) (rows : List PRow) (pk : List String)
    (mode : WriteMode) (layout_version : Int) (idempotency_key run_id : String)
    (src : Option DataSource) :
    Except RepoError (ReportFields × RepoState × List FsEvent) :=
  match manifestLookup st.manifest idempotency_key with
  | .error e => .error e
  | .ok (some f) =>
    match reportFromManifest f with
    | .error e => .error e
    | .ok rep => .ok (rep, st, [])
  | .ok none =>
    let dfN := rowsToDf rows
    match pk.find? (fun c => !((dfColumns dfN).contains c)) with
    | some c => .error (.missingPrimaryKeyColumn c)
    | none =>
      match processGroups store src pk mode dfN (groupsOf dfN) st.parts with
      | .error e => .error e
      | .ok (parts', events, ins, upd, skip) =>
        match mkStorageReport
            (reportCandidate store pk mode layout_version idempotency_key run_id src dfN
              ins upd skip) with
        | .error e => .error e
        | .ok rep =>
          match manifestWrite st.manifest idempotency_key rep with
          | .error e => .error e
          | .ok m' => .ok (rep, { manifest := m', parts := parts' }, events)

/-- Does the trace consist only of partition reads and direct in-place
partition overwrites (no temporary file, no rename)? -/
def traceDirectOnly (tr : List FsEvent) : Bool :=
  tr.all (fun e =>
    match e with
    | FsEvent.readPartition _ => true
    | FsEvent.writePartitionDirect _ => true
    | FsEvent.writeTempFile _ => false
    | FsEvent.renameTempOver _ => false)

/-- Placeholder record used as the fallback arm of sample extractions. -/
def dummyReport : ReportFields :=
  { run_id := ""
    idempotency_key := none
    engine := StorageEngine.parquet
    source := DataSource.yfinance
    location := ""
    symbol := ""
    primary_key := []
    layout_version := 0
    write_mode := WriteMode.upsert
    rows := 0
    inserted := 0
    updated := 0
    skipped := 0 }

/-- Sample manifest record carrying idempotency key k. -/
def entryK : ReportFields :=
  { dummyReport with
    idempotency_key := some "k"
    location := "data/silver/prices_daily"
    symbol := "AAPL" }

/-- Sample report fields violating the count invariant (rows is 1 but the
three counters are zero). -/
def badReport : ReportFields :=
  { dummyReport with location := "loc", symbol := "A", rows := 1 }

/-- Sample stored row: key A||2024-01-01, close 10. -/
def rowK10 : Row := { key := "A||2024-01-01", vals := [Cell.n (some 10)] }

/-- Sample incoming row with the same key as rowK10 and close 12. -/
def rowK12 : Row := { key := "A||2024-01-01", vals := [Cell.n (some 12)] }

/-- Sample incoming row with fresh key A||2024-01-02 and close 1. -/
def rowL1 : Row := { key := "A||2024-01-02", vals := [Cell.n (some 1)] }

/-- Sample incoming row duplicating rowL1's key, with close 2. -/
def rowL2 : Row := { key := "A||2024-01-02", vals := [Cell.n (some 2)] }

/-- Sample store rooted at data/silver/prices_daily. -/
def sampleStore : Store := { layer := "silver", dataset := "prices_daily", base_dir := "data" }

/-- Fresh state: no manifest file content, no partition files. -/
def emptyState : RepoState := { manifest := [], parts := [] }

/-- The default primary key of the adapter's callers. -/
def pk0 : List String := ["symbol", "date"]

/-- Sample price row for AAPL on 2024-01-02. -/
def prow1 : PRow :=
  { date := { y := 2024, m := 1, d := 2 }
    symbol := "AAPL"
    f_open := some 1
    f_high := some 2
    f_low := some 1
    f_close := some 1
    f_adj_close := some 1
    f_volume := some 100 }

/-- Sample one-row batch. -/
def rows0 : List PRow := [prow1]

/-- Sample first write against the fresh state. -/
def call1 : Except RepoError (ReportFields × RepoState × List FsEvent) :=
  upsertPrices sampleStore emptyState rows0 pk0 WriteMode.upsert 1 "idem-1" "run-1" none

/-- Receipt produced by the sample first write. -/
def rep0 : ReportFields :=
  match call1 with
  | .ok x => x.1
  | .error _ => dummyReport

/-- State after the sample first write. -/
def st1 : RepoState :=
  match call1 with
  | .ok x => x.2.1
  | .error _ => emptyState

/-- Partition-file trace of the sample first write. -/
def tr1 : List FsEvent :=
  match call1 with
  | .ok x => x.2.2
  | .error _ => []

/-- Partition file targeted by the sample write. -/
def pkey0 : PartKey := { src := none, symbol := "AAPL", year := 2024, month := 1 }

/-- State whose manifest already has an entry for key k. -/
def stHit : RepoState := { manifest := [ManifestLine.entry entryK], parts := [] }

/-- Did a construction succeed (no validation error raised)? -/
def isOkB : Except RepoError ReportFields → Bool
  | .ok _ => true
  | .error _ => false

deriving instance DecidableEq for Except

theorem char_toNat_ofNat_small (n : Nat) (h : n < 0xd800) : (Char.ofNat n).toNat = n := by
  rw [Char.ofNat, dif_pos (Or.inl h)]
  rfl

theorem char_eq_iff_toNat {a b : Char} : a = b ↔ a.toNat = b.toNat := by
  constructor
  · intro h; rw [h]
  · intro h
    apply Char.eq_of_val_eq
    apply UInt32.eq_of_toBitVec_eq
    simp only [Char.toNat, UInt32.toNat] at h
    exact BitVec.eq_of_toNat_eq h

theorem toUpper_toNat (c : Char) :
    (Char.toUpper c).toNat = if 97 ≤ c.toNat ∧ c.toNat ≤ 122 then c.toNat - 32 else c.toNat := by
  rw [Char.toUpper]
  by_cases h : 97 ≤ c.toNat ∧ c.toNat ≤ 122
  · rw [if_pos h, if_pos h, char_toNat_ofNat_small _ (by omega)]
  · rw [if_neg h, if_neg h]

theorem isStripChar_iff (c : Char) :
    isStripChar c = true ↔
      c.toNat = 32 ∨ c.toNat = 9 ∨ c.toNat = 10 ∨ c.toNat = 13 ∨ c.toNat = 11 ∨ c.toNat = 12 := by
  have e1 : (' ' : Char).toNat = 32 := rfl
  have e2 : ('\t' : Char).toNat = 9 := rfl
  have e3 : ('\n' : Char).toNat = 10 := rfl
  have e4 : ('\r' : Char).toNat = 13 := rfl
  have e5 : ('\x0b' : Char).toNat = 11 := rfl
  have e6 : ('\x0c' : Char).toNat = 12 := rfl
  simp only [isStripChar, Bool.or_eq_true, decide_eq_true_eq]
  rw [char_eq_iff_toNat, char_eq_iff_toNat, char_eq_iff_toNat, char_eq_iff_toNat,
    char_eq_iff_toNat, char_eq_iff_toNat, e1, e2, e3, e4, e5, e6]
  tauto

theorem toUpper_idem (c : Char) : Char.toUpper (Char.toUpper c) = Char.toUpper c := by
  rw [char_eq_iff_toNat, toUpper_toNat, toUpper_toNat]
  split_ifs <;> omega

theorem isStripChar_toUpper (c : Char) : isStripChar (Char.toUpper c) = isStripChar c := by
  by_cases h : 97 ≤ c.toNat ∧ c.toNat ≤ 122
  · have h1 : isStripChar c = false := by
      rw [Bool.eq_false_iff]
      intro hc
      rw [isStripChar_iff] at hc
      omega
    have h2 : isStripChar (Char.toUpper c) = false := by
      rw [Bool.eq_false_iff]
      intro hc
      rw [isStripChar_iff, toUpper_toNat, if_pos h] at hc
      omega
    rw [h1, h2]
  · have heq : Char.toUpper c = c := by
      rw [char_eq_iff_toNat, toUpper_toNat, if_neg h]
    rw [heq]

theorem dropWhile_idem {α : Type} (p : α → Bool) (l : List α) :
    (l.dropWhile p).dropWhile p = l.dropWhile p := by
  induction l with
  | nil => rfl
  | cons a t ih =>
    by_cases h : p a
    · simp [List.dropWhile_cons, h, ih]
    · simp [List.dropWhile_cons, h]

theorem stripLeftChars_idem (l : List Char) :
    stripLeftChars (stripLeftChars l) = stripLeftChars l := dropWhile_idem _ l

theorem stripRightChars_idem (l : List Char) :
    stripRightChars (stripRightChars l) = stripRightChars l := by
  simp [stripRightChars, List.reverse_reverse, dropWhile_idem]

theorem stripLeft_stripRight (l : List Char) :
    stripLeftChars (stripRightChars l) = stripRightChars (stripLeftChars l) := by
  induction l with
  | nil => rfl
  | cons a t ih =>
    by_cases hp : isStripChar a
    · by_cases h2 : (t.reverse.dropWhile isStripChar).isEmpty
      · have hall : ∀ x ∈ t.reverse, isStripChar x := by
          rw [← List.dropWhile_eq_nil_iff]
          simpa using h2
        have hsr : stripRightChars (a :: t) = [] := by
          simp only [stripRightChars, List.reverse_cons, List.dropWhile_append, h2, if_pos]
          simp [List.dropWhile_cons, hp]
        have hslt : stripLeftChars t = [] := by
          rw [stripLeftChars, List.dropWhile_eq_nil_iff]
          intro x hx
          exact hall x (List.mem_reverse.mpr hx)
        have hr : stripLeftChars (a :: t) = stripLeftChars t := by
          simp [stripLeftChars, List.dropWhile_cons, hp]
        rw [hsr, hr, hslt]
        rfl
      · have hsr : stripRightChars (a :: t) = a :: stripRightChars t := by
          simp only [stripRightChars, List.reverse_cons, List.dropWhile_append, h2, if_neg,
            Bool.not_eq_true]
          simp
        rw [hsr]
        have hl : stripLeftChars (a :: stripRightChars t) = stripLeftChars (stripRightChars t) := by
          simp [stripLeftChars, List.dropWhile_cons, hp]
        rw [hl, ih]
        have hr : stripLeftChars (a :: t) = stripLeftChars t := by
          simp [stripLeftChars, List.dropWhile_cons, hp]
        rw [hr]
    · have hl : stripLeftChars (a :: t) = a :: t := by
        simp [stripLeftChars, List.dropWhile_cons, hp]
      rw [hl]
      by_cases h2 : (t.reverse.dropWhile isStripChar).isEmpty
      · have hsr : stripRightChars (a :: t) = [a] := by
          simp only [stripRightChars, List.reverse_cons, List.dropWhile_append, h2, if_pos]
          simp [List.dropWhile_cons, hp]
        rw [hsr]
        simp [stripLeftChars, List.dropWhile_cons, hp]
      · have hsr : stripRightChars (a :: t) = a :: stripRightChars t := by
          simp only [stripRightChars, List.reverse_cons, List.dropWhile_append, h2, if_neg,
            Bool.not_eq_true]
          simp
        rw [hsr]
        simp [stripLeftChars, List.dropWhile_cons, hp]

theorem stripChars_idem (l : List Char) : stripChars (stripChars l) = stripChars l := by
  simp only [stripChars]
  rw [stripLeft_stripRight (stripLeftChars l), stripLeftChars_idem l,
    stripRightChars_idem (stripLeftChars l)]

theorem stripLeftChars_map_toUpper (l : List Char) :
    stripLeftChars (l.map Char.toUpper) = (stripLeftChars l).map Char.toUpper := by
  have hp : (fun c => isStripChar (Char.toUpper c)) = isStripChar := by
    funext c
    exact isStripChar_toUpper c
  simp only [stripLeftChars, List.dropWhile_map]
  rw [show (isStripChar ∘ Char.toUpper) = isStripChar from by funext c; exact isStripChar_toUpper c]

theorem stripRightChars_map_toUpper (l : List Char) :
    stripRightChars (l.map Char.toUpper) = (stripRightChars l).map Char.toUpper := by
  simp only [stripRightChars, ← List.map_reverse, List.dropWhile_map]
  rw [show (isStripChar ∘ Char.toUpper) = isStripChar from by funext c; exact isStripChar_toUpper c]

theorem stripChars_map_toUpper (l : List Char) :
    stripChars (l.map Char.toUpper) = (stripChars l).map Char.toUpper := by
  simp only [stripChars, stripLeftChars_map_toUpper, stripRightChars_map_toUpper]

theorem normSymbol_idem (s : String) : normSymbol (normSymbol s) = normSymbol s := by
  show String.mk ((stripChars ((stripChars s.data).map Char.toUpper)).map Char.toUpper) =
    String.mk ((stripChars s.data).map Char.toUpper)
  rw [stripChars_map_toUpper, stripChars_idem, List.map_map]
  rw [show (Char.toUpper ∘ Char.toUpper) = Char.toUpper from by funext c; exact toUpper_idem c]

theorem mkStorageReport_ok_eq {f r : ReportFields} (h : mkStorageReport f = .ok r) :
    r = { f with symbol := normSymbol f.symbol } ∧
    1 ≤ f.location.length ∧ normSymbol f.symbol ≠ "" ∧
    ¬(f.rows < 0 || f.inserted < 0 || f.updated < 0 || f.skipped < 0) = true ∧
    f.rows = f.inserted + f.updated + f.skipped := by
  unfold mkStorageReport at h
  split_ifs at h with h1 h2 h3 h4
  all_goals cases h
  refine ⟨rfl, by omega, h2, by simpa using h3, by omega⟩

theorem mkStorageReport_idem {f r : ReportFields} (h : mkStorageReport f = .ok r) :
    mkStorageReport r = .ok r := by
  obtain ⟨hr, hloc, hsym, hnn, hcnt⟩ := mkStorageReport_ok_eq h
  subst hr
  unfold mkStorageReport
  rw [if_neg (by simpa using by omega : ¬({ f with symbol := normSymbol f.symbol } :
    ReportFields).location.length < 1)]
  simp only
  rw [normSymbol_idem]
  rw [if_neg hsym]
  rw [if_neg (by simpa using hnn)]
  rw [if_neg (by simpa using hcnt)]

theorem manifestLookup_append_none {m : List ManifestLine} {k : String}
    (h : manifestLookup m k = .ok none) (l : List ManifestLine) :
    manifestLookup (m ++ l) k = manifestLookup l k := by
  induction m with
  | nil => rfl
  | cons a t ih =>
    cases a with
    | blank =>
      rw [List.cons_append]
      simp only [manifestLookup] at h ⊢
      exact ih h
    | malformed => simp [manifestLookup] at h
    | entry f =>
      rw [List.cons_append]
      simp only [manifestLookup] at h ⊢
      by_cases hk : f.idempotency_key = some k
      · rw [if_pos hk] at h
        cases h
      · rw [if_neg hk] at h ⊢
        exact ih h

theorem reportCandidate_key {store : Store} {pk : List String} {mode : WriteMode} {lv : Int}
    {k rid : String} {src : Option DataSource} {dfN : List PRow} {ins upd skip : Nat}
    {rep : ReportFields}
    (hm : mkStorageReport (reportCandidate store pk mode lv k rid src dfN ins upd skip) =
      .ok rep) :
    rep.idempotency_key = some k := by
  obtain ⟨hr, _, _, _, _⟩ := mkStorageReport_ok_eq hm
  rw [hr]
  rfl

theorem replay_after_write {store : Store} {st : RepoState} {rows : List PRow}
    {pk : List String} {mode : WriteMode} {lv : Int} {k rid' : String}
    {src : Option DataSource} {rep : ReportFields} {m' : List ManifestLine}
    {parts' : List (PartKey × List Row)}
    (hl : manifestLookup st.manifest k = .ok none)
    (hkey : rep.idempotency_key = some k)
    (hidem : mkStorageReport rep = .ok rep)
    (hw : manifestWrite st.manifest k rep = .ok m') :
    upsertPrices store { manifest := m', parts := parts' } rows pk mode lv k rid' src =
      .ok (rep, { manifest := m', parts := parts' }, []) := by
  have hm' : m' = st.manifest ++ [ManifestLine.entry rep] := by
    simp only [manifestWrite, hl] at hw
    cases hw
    rfl
  subst hm'
  have hl2 : manifestLookup (st.manifest ++ [ManifestLine.entry rep]) k = .ok (some rep) := by
    rw [manifestLookup_append_none hl]
    simp [manifestLookup, hkey]
  simp [upsertPrices, hl2, reportFromManifest, hidem]

/-- C1: when the idempotency key already has a manifest entry,
upsert_prices returns the receipt reconstructed from that entry, leaves
the state untouched and performs no partition-file I/O; consequently a
second call with the same batch and request (any run_id) returns the
first call's receipt identically, with unchanged state and no partition
I/O, hence zero additional inserted/updated/skipped side effects. -/
theorem C1_idempotent_replay :
    (∀ store st rows pk mode lv k rid src f,
      manifestLookup st.manifest k = .ok (some f) →
      upsertPrices store st rows pk mode lv k rid src =
        (reportFromManifest f).map (fun rep => (rep, st, ([] : List FsEvent)))) ∧
    (∀ store st rows pk mode lv k rid rid' src r₁ st₁ tr₁,
      upsertPrices store st rows pk mode lv k rid src = .ok (r₁, st₁, tr₁) →
      upsertPrices store st₁ rows pk mode lv k rid' src = .ok (r₁, st₁, [])) := by
  constructor
  · intro store st rows pk mode lv k rid src f h
    cases hrf : reportFromManifest f with
    | error e => simp [upsertPrices, h, hrf, Except.map]
    | ok rep => simp [upsertPrices, h, hrf, Except.map]
  · intro store st rows pk mode lv k rid rid' src r₁ st₁ tr₁ h
    cases hl : manifestLookup st.manifest k with
    | error e =>
      simp [upsertPrices, hl] at h
    | ok o =>
      cases o with
      | some f =>
        simp only [upsertPrices, hl] at h
        cases hrf : reportFromManifest f with
        | error e => simp [hrf] at h
        | ok rep =>
          rw [hrf] at h
          cases h
          simp [upsertPrices, hl, hrf]
      | none =>
        simp only [upsertPrices, hl] at h
        split at h
        · cases h
        · split at h
          · cases h
          · rename_i hp
            split at h
            · cases h
            · rename_i hm
              split at h
              · cases h
              · rename_i hw
                cases h
                exact replay_after_write hl (reportCandidate_key hm)
                  (mkStorageReport_idem hm) hw

theorem C1_idempotent_replay_witness :
    (manifestLookup stHit.manifest "k" = .ok (some entryK) ∧
      upsertPrices sampleStore stHit rows0 pk0 WriteMode.upsert 1 "k" "run-9" none =
        (reportFromManifest entryK).map (fun rep => (rep, stHit, ([] : List FsEvent)))) ∧
    ((upsertPrices sampleStore emptyState rows0 pk0 WriteMode.upsert 1 "idem-1" "run-1" none =
        .ok (rep0, st1, tr1)) ∧
      upsertPrices sampleStore st1 rows0 pk0 WriteMode.upsert 1 "idem-1" "run-2" none =
        .ok (rep0, st1, [])) :=
  ⟨⟨by decide,
    C1_idempotent_replay.1 sampleStore stHit rows0 pk0 WriteMode.upsert 1 "k" "run-9" none
      entryK (by decide)⟩,
   ⟨by decide,
    C1_idempotent_replay.2 sampleStore emptyState rows0 pk0 WriteMode.upsert 1 "idem-1"
      "run-1" "run-2" none rep0 st1 tr1 (by decide)⟩⟩

/-- C2: every receipt the adapter constructs or returns satisfies
rows == inserted + updated + skipped; constructing a StorageReport whose
counts violate the equality raises a validation error; and on the
aggregation path (manifest miss) the receipt's rows field equals the
total incoming row count. -/
theorem C2_count_invariant :
    (∀ f : ReportFields, f.rows ≠ f.inserted + f.updated + f.skipped →
      isOkB (mkStorageReport f) = false) ∧
    (∀ store st rows pk mode lv k rid src out,
      upsertPrices store st rows pk mode lv k rid src = .ok out →
      out.1.rows = out.1.inserted + out.1.updated + out.1.skipped ∧
      (manifestLookup st.manifest k = .ok none → out.1.rows = (rows.length : Int))) := by
  constructor
  · intro f hne
    unfold mkStorageReport
    split_ifs
    all_goals rfl
  · intro store st rows pk mode lv k rid src out h
    cases hl : manifestLookup st.manifest k with
    | error e =>
      simp [upsertPrices, hl] at h
    | ok o =>
      cases o with
      | some f =>
        simp only [upsertPrices, hl] at h
        cases hrf : reportFromManifest f with
        | error e => simp [hrf] at h
        | ok rep =>
          rw [hrf] at h
          obtain ⟨hr, _, _, _, hcnt⟩ := mkStorageReport_ok_eq hrf
          cases h
          constructor
          · rw [hr]
            exact hcnt
          · intro habs
            simp at habs
      | none =>
        simp only [upsertPrices, hl] at h
        split at h
        · cases h
        · split at h
          · cases h
          · rename_i hp
            split at h
            · cases h
            · rename_i hm
              split at h
              · cases h
              · rename_i hw
                obtain ⟨hr, _, _, _, hcnt⟩ := mkStorageReport_ok_eq hm
                cases h
                constructor
                · rw [hr]
                  exact hcnt
                · intro _
                  rw [hr]
                  simp [reportCandidate, rowsToDf]

theorem C2_count_invariant_witness :
    ((badReport.rows ≠ badReport.inserted + badReport.updated + badReport.skipped) ∧
      isOkB (mkStorageReport badReport) = false) ∧
    ((upsertPrices sampleStore emptyState rows0 pk0 WriteMode.upsert 1 "idem-1" "run-1" none =
        .ok (rep0, st1, tr1)) ∧
      ((rep0, st1, tr1).1.rows =
          (rep0, st1, tr1).1.inserted + (rep0, st1, tr1).1.updated + (rep0, st1, tr1).1.skipped ∧
        (manifestLookup emptyState.manifest "idem-1" = .ok none →
          (rep0, st1, tr1).1.rows = (rows0.length : Int)))) :=
  ⟨⟨by decide, C2_count_invariant.1 badReport (by decide)⟩,
   ⟨by decide,
    C2_count_invariant.2 sampleStore emptyState rows0 pk0 WriteMode.upsert 1 "idem-1" "run-1"
      none (rep0, st1, tr1) (by decide)⟩⟩

theorem C9_empty_batch_cex :
    upsertPrices sampleStore emptyState [] pk0 WriteMode.upsert 1 "idem-1" "run-1" none =
      .error (RepoError.missingPrimaryKeyColumn "symbol") := by
  decide

/-- C9 (amended): calling upsert_prices with an empty row list, a fresh
idempotency key and a non-empty primary key raises the missing
primary-key-column ValueError for the first primary-key column (the empty
DataFrame has no columns), returning no receipt and writing nothing; the
zero-count receipt for an empty batch is produced by the ingestion
service's short circuit, which never calls the repository. -/
theorem C9_empty_batch :
    ∀ (store : Store) (st : RepoState) (c : String) (cs : List String) (mode : WriteMode)
      (lv : Int) (k rid : String) (src : Option DataSource),
      manifestLookup st.manifest k = .ok none →
      upsertPrices store st [] (c :: cs) mode lv k rid src =
        .error (RepoError.missingPrimaryKeyColumn c) := by
  intro store st c cs mode lv k rid src hl
  simp only [upsertPrices, hl]
  rfl

theorem C9_empty_batch_witness :
    manifestLookup emptyState.manifest "idem-1" = .ok none ∧
    upsertPrices sampleStore emptyState [] ("symbol" :: ["date"]) WriteMode.upsert 1 "idem-1"
        "run-1" none = .error (RepoError.missingPrimaryKeyColumn "symbol") :=
  ⟨by decide,
   C9_empty_batch sampleStore emptyState "symbol" ["date"] WriteMode.upsert 1 "idem-1"
     "run-1" none (by decide)⟩

theorem C10_malformed_line_cex :
    manifestLookup [ManifestLine.malformed, ManifestLine.entry entryK] "k" =
      .error RepoError.corruptManifestLine ∧
    manifestLookup [ManifestLine.malformed, ManifestLine.entry entryK] "k" ≠
      .ok (some entryK) := by
  constructor
  · decide
  · decide

/-- C10 (amended): a malformed manifest line is not skipped: the first
malformed line the scan reaches (after any blank lines and non-matching
records) makes the lookup raise json.JSONDecodeError, so a write whose
idempotency check scans past such a line fails; only a missing manifest
file is handled (clean miss). -/
theorem C10_malformed_line :
    ∀ (m₁ m₂ : List ManifestLine) (k : String),
      ManifestLine.malformed ∉ m₁ →
      (∀ f, ManifestLine.entry f ∈ m₁ → f.idempotency_key ≠ some k) →
      manifestLookup (m₁ ++ ManifestLine.malformed :: m₂) k =
        .error RepoError.corruptManifestLine := by
  intro m₁ m₂ k h1 h2
  induction m₁ with
  | nil => rfl
  | cons a t ih =>
    cases a with
    | blank =>
      rw [List.cons_append]
      simp only [manifestLookup]
      exact ih (fun hmem => h1 (List.mem_cons_of_mem _ hmem))
        (fun f hf => h2 f (List.mem_cons_of_mem _ hf))
    | malformed => exact absurd (List.mem_cons_self _ _) h1
    | entry f =>
      rw [List.cons_append]
      simp only [manifestLookup]
      rw [if_neg (h2 f (List.mem_cons_self _ _))]
      exact ih (fun hmem => h1 (List.mem_cons_of_mem _ hmem))
        (fun g hg => h2 g (List.mem_cons_of_mem _ hg))

theorem C10_malformed_line_witness :
    ManifestLine.malformed ∉ [ManifestLine.blank, ManifestLine.entry dummyReport] ∧
    manifestLookup ([ManifestLine.blank, ManifestLine.entry dummyReport] ++
        ManifestLine.malformed :: [ManifestLine.entry entryK]) "k" =
      .error RepoError.corruptManifestLine :=
  ⟨by decide,
   C10_malformed_line [ManifestLine.blank, ManifestLine.entry dummyReport]
     [ManifestLine.entry entryK] "k" (by decide)
     (by
       intro f hf
       simp at hf
       subst hf
       decide)⟩

theorem processGroups_trace {store : Store} {src : Option DataSource} {pk : List String}
    {mode : WriteMode} {dfN : List PRow} :
    ∀ (gs : List (String × Nat × Nat)) (parts : List (PartKey × List Row))
      (out : List (PartKey × List Row) × List FsEvent × Nat × Nat × Nat),
      processGroups store src pk mode dfN gs parts = .ok out →
      traceDirectOnly out.2.1 = true := by
  intro gs
  induction gs with
  | nil =>
    intro parts out h
    simp only [processGroups] at h
    cases h
    rfl
  | cons g gs ih =>
    intro parts out h
    simp only [processGroups] at h
    split at h
    · cases h
    · rename_i hmerge
      split at h
      · cases h
      · rename_i hrec
        cases h
        have htail := ih (partsSet parts (partKeyFor store src g) _) _ hrec
        cases hrp : partsGet parts (partKeyFor store src g) <;>
          simp only [traceDirectOnly, List.all_append, hrp] at htail ⊢ <;>
          simpa using htail

/-- C8 (amended): every partition-file event of a successful
upsert_prices call is either a read of an existing partition file or a
single direct to_parquet overwrite of the destination path; no temporary
file is written and no rename is performed, so the write-back is not an
atomic replace. -/
theorem C8_direct_write :
    ∀ store st rows pk mode lv k rid src out,
      upsertPrices store st rows pk mode lv k rid src = .ok out →
      traceDirectOnly out.2.2 = true := by
  intro store st rows pk mode lv k rid src out h
  cases hl : manifestLookup st.manifest k with
  | error e => simp [upsertPrices, hl] at h
  | ok o =>
    cases o with
    | some f =>
      simp only [upsertPrices, hl] at h
      cases hrf : reportFromManifest f with
      | error e => simp [hrf] at h
      | ok rep =>
        rw [hrf] at h
        cases h
        rfl
    | none =>
      simp only [upsertPrices, hl] at h
      split at h
      · cases h
      · split at h
        · cases h
        · rename_i hp
          split at h
          · cases h
          · rename_i hm
            split at h
            · cases h
            · rename_i hw
              cases h
              exact processGroups_trace _ _ _ hp

theorem C8_direct_write_cex :
    upsertPrices sampleStore emptyState rows0 pk0 WriteMode.upsert 1 "idem-1" "run-1" none =
      .ok (rep0, st1, tr1) ∧
    FsEvent.writePartitionDirect pkey0 ∈ tr1 ∧
    FsEvent.writeTempFile pkey0 ∉ tr1 ∧
    FsEvent.renameTempOver pkey0 ∉ tr1 :=
  ⟨by decide, by decide, by decide, by decide⟩

theorem C8_direct_write_witness :
    upsertPrices sampleStore emptyState rows0 pk0 WriteMode.upsert 1 "idem-1" "run-1" none =
      .ok (rep0, st1, tr1) ∧
    traceDirectOnly (rep0, st1, tr1).2.2 = true :=
  ⟨by decide,
   C8_direct_write sampleStore emptyState rows0 pk0 WriteMode.upsert 1 "idem-1" "run-1" none
     (rep0, st1, tr1) (by decide)⟩

theorem mem_keysOf {df : List Row} {k : String} :
    k ∈ keysOf df ↔ ∃ r ∈ df, r.key = k := by
  simp [keysOf]

theorem contains_keysOf {df : List Row} {k : String} :
    (keysOf df).contains k = true ↔ k ∈ keysOf df := List.elem_iff

theorem nodup_keysOf_filter {l : List Row} (p : Row → Bool) (h : (keysOf l).Nodup) :
    (keysOf (l.filter p)).Nodup :=
  h.sublist ((List.filter_sublist l).map Row.key)

theorem mem_keysOf_filter {l : List Row} {p : Row → Bool} {k : String} :
    k ∈ keysOf (l.filter p) ↔ ∃ r ∈ l, p r = true ∧ r.key = k := by
  simp only [keysOf, List.mem_map, List.mem_filter]
  tauto

theorem cellDiff_iff {a b : Cell} : cellDiff a b = true ↔ a ≠ b := by
  rcases a with v | v | (_ | v) <;> rcases b with w | w | (_ | w) <;>
    simp [cellDiff, pandasNe, cellIsNA]

theorem cellDiff_eq_false_iff {a b : Cell} : cellDiff a b = false ↔ a = b := by
  rw [Bool.eq_false_iff, Ne, cellDiff_iff]
  tauto

theorem alignedOld_eq {vn vo : List Cell} (h : vn.length = vo.length) :
    alignedOld vn vo = vo := by
  apply List.ext_getElem
  · simp [alignedOld, h]
  · intro i h1 h2
    simp only [alignedOld, List.getElem_map, List.getElem_range]
    rw [List.getD_eq_getElem]

theorem rowDiffers_eq_false_iff {vn vo : List Cell} (h : vn.length = vo.length) :
    rowDiffers vn vo = false ↔ vn = vo := by
  rw [rowDiffers, alignedOld_eq h]
  induction vn generalizing vo with
  | nil =>
    cases vo with
    | nil => simp
    | cons b bs => simp at h
  | cons a as ih =>
    cases vo with
    | nil => simp at h
    | cons b bs =>
      simp only [List.zip_cons_cons, List.any_cons, Bool.or_eq_false_iff]
      rw [ih (by simpa using h)]
      constructor
      · rintro ⟨h1, h2⟩
        rw [cellDiff_eq_false_iff] at h1
        rw [h1, h2]
      · intro hx
        cases hx
        exact ⟨cellDiff_eq_false_iff.mpr rfl, rfl⟩

theorem find?_filter {α : Type} {l : List α} {p q : α → Bool}
    (h : ∀ x, q x = true → p x = true) :
    (l.filter p).find? q = l.find? q := by
  induction l with
  | nil => rfl
  | cons a t ih =>
    by_cases hp : p a
    · rw [List.filter_cons_of_pos hp]
      by_cases hq : q a
      · simp [List.find?_cons, hq]
      · simp [List.find?_cons, hq, ih]
    · have hq : q a = false := by
        cases hqa : q a
        · rfl
        · exact absurd (h a hqa) (by simp [hp])
      rw [List.filter_cons_of_neg hp]
      simp [List.find?_cons, hq, ih]

theorem dedupKeepLast_eq_self {l : List Row} (h : (keysOf l).Nodup) :
    dedupKeepLast l = l := by
  induction l with
  | nil => rfl
  | cons r rs ih =>
    have hpair := List.nodup_cons.mp h
    have hany : rs.any (fun x => x.key == r.key) = false := by
      rw [List.any_eq_false]
      intro x hx
      simp only [beq_iff_eq]
      intro hxy
      exact hpair.1 (mem_keysOf.mpr ⟨x, hx, hxy⟩)
    simp [dedupKeepLast, hany, ih hpair.2]

theorem mem_dedupKeepLast {l : List Row} {x : Row} (h : x ∈ dedupKeepLast l) : x ∈ l := by
  induction l with
  | nil => simp [dedupKeepLast] at h
  | cons r rs ih =>
    by_cases hany : rs.any (fun y => y.key == r.key)
    · rw [show dedupKeepLast (r :: rs) = dedupKeepLast rs from by simp [dedupKeepLast, hany]] at h
      exact List.mem_cons_of_mem _ (ih h)
    · rw [show dedupKeepLast (r :: rs) = r :: dedupKeepLast rs from by
        simp [dedupKeepLast, hany]] at h
      rcases List.mem_cons.mp h with h | h
      · exact h ▸ List.mem_cons_self _ _
      · exact List.mem_cons_of_mem _ (ih h)

theorem find?_dedupKeepLast (l : List Row) (k : String) :
    (dedupKeepLast l).find? (fun r => r.key == k) = l.reverse.find? (fun r => r.key == k) := by
  induction l with
  | nil => rfl
  | cons r rs ih =>
    by_cases hany : rs.any (fun x => x.key == r.key)
    · rw [show dedupKeepLast (r :: rs) = dedupKeepLast rs from by simp [dedupKeepLast, hany]]
      rw [ih, List.reverse_cons, List.find?_append]
      by_cases hk : (r.key == k) = true
      · have hsome : (rs.reverse.find? (fun x => x.key == k)).isSome := by
          rw [List.find?_isSome]
          obtain ⟨x, hx, hxk⟩ := List.any_eq_true.mp hany
          refine ⟨x, List.mem_reverse.mpr hx, ?_⟩
          rw [beq_iff_eq] at hxk ⊢
          rw [hxk]
          exact beq_iff_eq.mp hk
        obtain ⟨x, hfx⟩ := Option.isSome_iff_exists.mp hsome
        rw [hfx]
        rfl
      · have : ([r].find? (fun x => x.key == k)) = none := by
          simp [List.find?_cons, hk]
        rw [this, Option.or_none]
    · rw [show dedupKeepLast (r :: rs) = r :: dedupKeepLast rs from by
        simp [dedupKeepLast, hany]]
      have hnone : rs.reverse.find? (fun x => x.key == k) =
          rs.find? (fun x => x.key == k) → True := fun _ => trivial
      by_cases hk : (r.key == k) = true
      · have hrs : rs.reverse.find? (fun x => x.key == k) = none := by
          rw [List.find?_eq_none]
          intro x hx
          simp only [beq_iff_eq]
          intro hxk
          have : rs.any (fun y => y.key == r.key) = true := by
            rw [List.any_eq_true]
            refine ⟨x, List.mem_reverse.mp hx, ?_⟩
            rw [beq_iff_eq, hxk]
            exact (beq_iff_eq.mp hk).symm
          exact absurd this (by simpa using hany)
        rw [List.reverse_cons, List.find?_append, hrs]
        simp [List.find?_cons, hk]
      · rw [List.reverse_cons, List.find?_append]
        have h1 : ([r].find? (fun x => x.key == k)) = none := by
          simp [List.find?_cons, hk]
        have hkf : (r.key == k) = false := by simpa using hk
        rw [h1, Option.or_none, List.find?_cons]
        simp only [hkf]
        exact ih

theorem dedupKeepFirstAux_cons_pos {seen : List String} {r : Row} (rs : List Row)
    (hs : seen.contains r.key = true) :
    dedupKeepFirstAux seen (r :: rs) = dedupKeepFirstAux seen rs := by
  simp only [dedupKeepFirstAux]
  rw [if_pos hs]

theorem dedupKeepFirstAux_cons_neg {seen : List String} {r : Row} (rs : List Row)
    (hs : ¬seen.contains r.key = true) :
    dedupKeepFirstAux seen (r :: rs) = r :: dedupKeepFirstAux (r.key :: seen) rs := by
  simp only [dedupKeepFirstAux]
  rw [if_neg hs]

theorem mem_dedupKeepFirstAux {seen : List String} {l : List Row} {x : Row}
    (h : x ∈ dedupKeepFirstAux seen l) : x ∈ l := by
  induction l generalizing seen with
  | nil => simp [dedupKeepFirstAux] at h
  | cons r rs ih =>
    by_cases hs : seen.contains r.key = true
    · rw [dedupKeepFirstAux_cons_pos rs hs] at h
      exact List.mem_cons_of_mem _ (ih h)
    · rw [dedupKeepFirstAux_cons_neg rs hs] at h
      rcases List.mem_cons.mp h with h | h
      · exact h ▸ List.mem_cons_self _ _
      · exact List.mem_cons_of_mem _ (ih h)

theorem find?_dedupKeepFirstAux {seen : List String} {l : List Row} {k : String}
    (hk : k ∉ seen) :
    (dedupKeepFirstAux seen l).find? (fun r => r.key == k) = l.find? (fun r => r.key == k) := by
  induction l generalizing seen with
  | nil => rfl
  | cons r rs ih =>
    by_cases hs : seen.contains r.key = true
    · have hq : (r.key == k) = false := by
        rw [beq_eq_false_iff_ne]
        intro heq
        exact hk (heq ▸ List.elem_iff.mp hs)
      rw [dedupKeepFirstAux_cons_pos rs hs]
      rw [List.find?_cons]
      simp only [hq]
      exact ih hk
    · rw [dedupKeepFirstAux_cons_neg rs hs]
      by_cases hq : (r.key == k) = true
      · simp [List.find?_cons, hq]
      · have hqf : (r.key == k) = false := by simpa using hq
        have hk2 : k ∉ r.key :: seen := by
          intro hmem
          rcases List.mem_cons.mp hmem with h | h
          · exact (beq_eq_false_iff_ne.mp hqf) h.symm
          · exact hk h
        rw [List.find?_cons, List.find?_cons]
        simp only [hqf]
        exact ih hk2

theorem keysOf_append (a b : List Row) : keysOf (a ++ b) = keysOf a ++ keysOf b :=
  List.map_append Row.key a b

theorem nodup_keysOf_append {a b : List Row} (ha : (keysOf a).Nodup) (hb : (keysOf b).Nodup)
    (hd : ∀ k, k ∈ keysOf a → k ∉ keysOf b) : (keysOf (a ++ b)).Nodup := by
  rw [keysOf_append]
  exact ha.append hb hd

theorem find?_key_of_nodup {df : List Row} {o : Row} (ho : o ∈ df)
    (h : (keysOf df).Nodup) : df.find? (fun r => r.key == o.key) = some o := by
  induction df with
  | nil => cases ho
  | cons r rs ih =>
    have h2 : (r.key :: keysOf rs).Nodup := by simpa [keysOf] using h
    rcases List.mem_cons.mp ho with heq | hmem
    · subst heq
      rw [List.find?_cons]
      simp
    · have hk : (r.key == o.key) = false := by
        rw [beq_eq_false_iff_ne]
        intro he
        exact (List.nodup_cons.mp h2).1 (he ▸ mem_keysOf.mpr ⟨o, hmem, rfl⟩)
      rw [List.find?_cons]
      simp only [hk]
      exact ih hmem (by simpa [keysOf] using (List.nodup_cons.mp h2).2)

theorem newRowDiffers_eq {df_old : List Row} {o r : Row} (ho : o ∈ df_old)
    (h : (keysOf df_old).Nodup) (hk : o.key = r.key) :
    newRowDiffers df_old r = rowDiffers r.vals o.vals := by
  unfold newRowDiffers findByKey
  rw [← hk, find?_key_of_nodup ho h]

theorem inter_keys_perm {df_old df_new : List Row}
    (hold : (keysOf df_old).Nodup) (hnew : (keysOf df_new).Nodup) :
    List.Perm (keysOf (df_new.filter (fun r => (keysOf df_old).contains r.key)))
      (keysOf (df_old.filter (fun r => (keysOf df_new).contains r.key))) := by
  apply (List.perm_ext_iff_of_nodup (nodup_keysOf_filter _ hnew)
    (nodup_keysOf_filter _ hold)).mpr
  intro k
  rw [mem_keysOf_filter, mem_keysOf_filter]
  constructor
  · rintro ⟨r, hr, hc, hkey⟩
    have hkOld : k ∈ keysOf df_old := hkey ▸ contains_keysOf.mp hc
    have hkNew : k ∈ keysOf df_new := mem_keysOf.mpr ⟨r, hr, hkey⟩
    obtain ⟨o, ho, hok⟩ := mem_keysOf.mp hkOld
    exact ⟨o, ho, contains_keysOf.mpr (hok ▸ hkNew), hok⟩
  · rintro ⟨o, ho, hc, hkey⟩
    have hkNew : k ∈ keysOf df_new := hkey ▸ contains_keysOf.mp hc
    have hkOld : k ∈ keysOf df_old := mem_keysOf.mpr ⟨o, ho, hkey⟩
    obtain ⟨r, hr, hrk⟩ := mem_keysOf.mp hkNew
    exact ⟨r, hr, contains_keysOf.mpr (hrk ▸ hkOld), hrk⟩

theorem merged_keys_nodup {df_old df_new : List Row}
    (hold : (keysOf df_old).Nodup) (hnew : (keysOf df_new).Nodup) :
    (keysOf (df_old.filter (fun r => !((keysOf df_new).contains r.key)) ++
      df_new.filter (fun r => (keysOf df_old).contains r.key) ++
      df_new.filter (fun r => !((keysOf df_old).contains r.key)))).Nodup := by
  apply nodup_keysOf_append
  · apply nodup_keysOf_append
    · exact nodup_keysOf_filter _ hold
    · exact nodup_keysOf_filter _ hnew
    · intro k hk1 hk2
      obtain ⟨r, hr, hp, hkey⟩ := mem_keysOf_filter.mp hk1
      obtain ⟨x, hx, hxp, hxkey⟩ := mem_keysOf_filter.mp hk2
      simp only [Bool.not_eq_true'] at hp
      have : k ∈ keysOf df_new := mem_keysOf.mpr ⟨x, hx, hxkey⟩
      rw [← hkey] at this
      exact absurd (contains_keysOf.mpr this) (by rw [hp]; exact Bool.false_ne_true)
  · exact nodup_keysOf_filter _ hnew
  · intro k hk1 hk2
    rw [keysOf_append, List.mem_append] at hk1
    obtain ⟨x, hx, hxp, hxkey⟩ := mem_keysOf_filter.mp hk2
    rcases hk1 with hk1 | hk1
    · obtain ⟨r, hr, hp, hkey⟩ := mem_keysOf_filter.mp hk1
      simp only [Bool.not_eq_true'] at hp
      have : k ∈ keysOf df_new := mem_keysOf.mpr ⟨x, hx, hxkey⟩
      rw [← hkey] at this
      exact absurd (contains_keysOf.mpr this) (by rw [hp]; exact Bool.false_ne_true)
    · obtain ⟨r, hr, hp, hkey⟩ := mem_keysOf_filter.mp hk1
      simp only [Bool.not_eq_true'] at hxp
      have : k ∈ keysOf df_old := hkey ▸ contains_keysOf.mp hp
      rw [← hxkey] at this
      exact absurd (contains_keysOf.mpr this) (by rw [hxp]; exact Bool.false_ne_true)

theorem upsertMerge_ok {df_old df_new : List Row}
    (hold : (keysOf df_old).Nodup) (hnew : (keysOf df_new).Nodup) :
    upsertMerge df_old df_new =
      .ok (df_old.filter (fun r => !((keysOf df_new).contains r.key)) ++
          df_new.filter (fun r => (keysOf df_old).contains r.key) ++
          df_new.filter (fun r => !((keysOf df_old).contains r.key)),
        (df_new.filter (fun r => !((keysOf df_old).contains r.key))).length,
        ((df_new.filter (fun r => (keysOf df_old).contains r.key)).filter
          (fun r => newRowDiffers df_old r)).length,
        df_new.length -
          (df_new.filter (fun r => !((keysOf df_old).contains r.key))).length -
          ((df_new.filter (fun r => (keysOf df_old).contains r.key)).filter
            (fun r => newRowDiffers df_old r)).length) := by
  by_cases he : df_old.isEmpty
  · have hoe : df_old = [] := by simpa [List.isEmpty_iff] using he
    subst hoe
    simp [upsertMerge, keysOf]
  · unfold upsertMerge
    rw [if_neg (by simpa using he)]
    dsimp only
    have hisPerm : (keysOf (df_new.filter (fun r => (keysOf df_old).contains r.key))).isPerm
        (keysOf (df_old.filter (fun r => (keysOf df_new).contains r.key))) = true :=
      List.isPerm_iff.mpr (inter_keys_perm hold hnew)
    rw [hisPerm]
    simp only [Bool.not_true, Bool.and_false]
    rw [if_neg Bool.false_ne_true]
    rw [dedupKeepLast_eq_self (merged_keys_nodup hold hnew)]

theorem C3_upsert_semantics_cex :
    upsertMerge [rowK10] [rowL1, rowL2] = .ok ([rowK10, rowL2], 2, 0, 0) ∧
    rowL1.key ∉ keysOf [rowK10] ∧
    rowL1 ∉ [rowK10, rowL2] := by
  refine ⟨by decide, by decide, by decide⟩

/-- C3 (amended): under UPSERT, for an existing partition row set with
pairwise-distinct pk-strings and an incoming batch with pairwise-distinct
pk-strings over the same columns, each incoming row with a fresh pk-string
is counted inserted and appears in the result; each incoming row whose
pk-string exists is counted updated when some non-key column differs
NULL-awarely (new values win: the incoming row is in the result) and
counted skipped when all non-key columns are equal (the existing row is
retained); inserted + updated + skipped equals the incoming row count.
The distinct-incoming restriction is forced by the counterexample: with a
duplicated fresh key both duplicates are counted inserted but only the
last occurrence survives. -/
theorem C3_upsert_semantics :
    ∀ (df_old df_new : List Row),
      (keysOf df_old).Nodup →
      (keysOf df_new).Nodup →
      (∀ o ∈ df_old, ∀ r ∈ df_new, o.vals.length = r.vals.length) →
      ∃ merged ins upd skip,
        upsertMerge df_old df_new = .ok (merged, ins, upd, skip) ∧
        ins = (df_new.filter (fun r => !((keysOf df_old).contains r.key))).length ∧
        upd = ((df_new.filter (fun r => (keysOf df_old).contains r.key)).filter
          (fun r => newRowDiffers df_old r)).length ∧
        skip = ((df_new.filter (fun r => (keysOf df_old).contains r.key)).filter
          (fun r => !(newRowDiffers df_old r))).length ∧
        (∀ r ∈ df_new, r.key ∉ keysOf df_old → r ∈ merged) ∧
        (∀ r ∈ df_new, ∀ o ∈ df_old, o.key = r.key →
          newRowDiffers df_old r = rowDiffers r.vals o.vals ∧
          (rowDiffers r.vals o.vals = true → r ∈ merged) ∧
          (rowDiffers r.vals o.vals = false → o ∈ merged)) ∧
        ins + upd + skip = df_new.length := by
  intro df_old df_new hold hnew hlen
  have hsplit : df_new.length =
      (df_new.filter (fun r => (keysOf df_old).contains r.key)).length +
      (df_new.filter (fun r => !((keysOf df_old).contains r.key))).length :=
    List.length_eq_length_filter_add _
  have hsplit2 : (df_new.filter (fun r => (keysOf df_old).contains r.key)).length =
      ((df_new.filter (fun r => (keysOf df_old).contains r.key)).filter
        (fun r => newRowDiffers df_old r)).length +
      ((df_new.filter (fun r => (keysOf df_old).contains r.key)).filter
        (fun r => !(newRowDiffers df_old r))).length :=
    List.length_eq_length_filter_add _
  refine ⟨_, _, _, _, upsertMerge_ok hold hnew, rfl, rfl, by omega, ?_, ?_, by omega⟩
  · intro r hr hnot
    have hc : (keysOf df_old).contains r.key = false :=
      Bool.eq_false_iff.mpr (fun hc => hnot (contains_keysOf.mp hc))
    refine List.mem_append.mpr (Or.inr ?_)
    exact List.mem_filter.mpr ⟨hr, by rw [hc]; rfl⟩
  · intro r hr o ho hk
    have hc : (keysOf df_old).contains r.key = true :=
      contains_keysOf.mpr (mem_keysOf.mpr ⟨o, ho, hk⟩)
    have hrmem : r ∈ df_old.filter (fun x => !((keysOf df_new).contains x.key)) ++
        df_new.filter (fun x => (keysOf df_old).contains x.key) ++
        df_new.filter (fun x => !((keysOf df_old).contains x.key)) := by
      refine List.mem_append.mpr (Or.inl (List.mem_append.mpr (Or.inr ?_)))
      exact List.mem_filter.mpr ⟨hr, hc⟩
    refine ⟨newRowDiffers_eq ho hold hk, fun _ => hrmem, fun hdf => ?_⟩
    have hlen2 : r.vals.length = o.vals.length := (hlen o ho r hr).symm
    have hv : r.vals = o.vals := (rowDiffers_eq_false_iff hlen2).mp hdf
    have hor : o = r := by
      calc o = Row.mk o.key o.vals := rfl
        _ = Row.mk r.key r.vals := by rw [hk, hv]
        _ = r := rfl
    rw [hor]
    exact hrmem

theorem C3_upsert_semantics_witness :
    ((keysOf [rowK10]).Nodup ∧ (keysOf [rowK12, rowL1]).Nodup ∧
      (∀ o ∈ [rowK10], ∀ r ∈ [rowK12, rowL1], o.vals.length = r.vals.length)) ∧
    (∃ merged ins upd skip,
      upsertMerge [rowK10] [rowK12, rowL1] = .ok (merged, ins, upd, skip) ∧
      ins = ([rowK12, rowL1].filter
        (fun r => !((keysOf [rowK10]).contains r.key))).length ∧
      upd = (([rowK12, rowL1].filter (fun r => (keysOf [rowK10]).contains r.key)).filter
        (fun r => newRowDiffers [rowK10] r)).length ∧
      skip = (([rowK12, rowL1].filter (fun r => (keysOf [rowK10]).contains r.key)).filter
        (fun r => !(newRowDiffers [rowK10] r))).length ∧
      (∀ r ∈ [rowK12, rowL1], r.key ∉ keysOf [rowK10] → r ∈ merged) ∧
      (∀ r ∈ [rowK12, rowL1], ∀ o ∈ [rowK10], o.key = r.key →
        newRowDiffers [rowK10] r = rowDiffers r.vals o.vals ∧
        (rowDiffers r.vals o.vals = true → r ∈ merged) ∧
        (rowDiffers r.vals o.vals = false → o ∈ merged)) ∧
      ins + upd + skip = [rowK12, rowL1].length) :=
  ⟨⟨by decide, by decide, by decide⟩,
   C3_upsert_semantics [rowK10] [rowK12, rowL1] (by decide) (by decide) (by decide)⟩

/-- C4: under APPEND, incoming rows with new pk-strings are counted
inserted, incoming rows whose pk-string already exists are entirely
skipped with every existing row left unchanged in the result, and the
updated count is 0 in all cases, whatever the incoming values are. -/
theorem C4_append_semantics :
    ∀ (df_old df_new : List Row),
      (keysOf df_old).Nodup →
      ((appendMerge df_old df_new).2.1 =
        (df_new.filter (fun r => !((keysOf df_old).contains r.key))).length ∧
       (appendMerge df_old df_new).2.2.1 = 0 ∧
       (appendMerge df_old df_new).2.2.2 =
        (df_new.filter (fun r => (keysOf df_old).contains r.key)).length ∧
       (∀ o ∈ df_old, o ∈ (appendMerge df_old df_new).1) ∧
       (∀ x ∈ (appendMerge df_old df_new).1,
         x ∈ df_old ∨ (x ∈ df_new ∧ x.key ∉ keysOf df_old))) := by
  intro df_old df_new hold
  have hsplit : df_new.length =
      (df_new.filter (fun r => (keysOf df_old).contains r.key)).length +
      (df_new.filter (fun r => !((keysOf df_old).contains r.key))).length :=
    List.length_eq_length_filter_add _
  by_cases he : df_old.isEmpty
  · have hoe : df_old = [] := by simpa [List.isEmpty_iff] using he
    subst hoe
    refine ⟨by simp [appendMerge, keysOf], by simp [appendMerge], by simp [appendMerge, keysOf],
      by simp, ?_⟩
    intro x hx
    right
    refine ⟨by simpa [appendMerge] using hx, by simp [keysOf]⟩
  · unfold appendMerge
    rw [if_neg (by simpa using he)]
    dsimp only
    refine ⟨rfl, rfl, by omega, ?_, ?_⟩
    · intro o ho
      have hfind : (dedupKeepFirst (df_old ++
          df_new.filter (fun r => !((keysOf df_old).contains r.key)))).find?
            (fun r => r.key == o.key) = some o := by
        rw [dedupKeepFirst, find?_dedupKeepFirstAux (List.not_mem_nil o.key),
          List.find?_append, find?_key_of_nodup ho hold]
        rfl
      exact List.mem_of_find?_eq_some hfind
    · intro x hx
      have hx2 := mem_dedupKeepFirstAux hx
      rcases List.mem_append.mp hx2 with hm | hm
      · exact Or.inl hm
      · obtain ⟨hxn, hxp⟩ := List.mem_filter.mp hm
        rw [Bool.not_eq_true'] at hxp
        refine Or.inr ⟨hxn, fun hmem => ?_⟩
        exact absurd (contains_keysOf.mpr hmem) (by rw [hxp]; exact Bool.false_ne_true)

theorem C4_append_semantics_witness :
    ((keysOf [rowK10]).Nodup ∧
      appendMerge [rowK10] [rowK12, rowL1] = ([rowK10, rowL1], 1, 0, 1)) ∧
    ((appendMerge [rowK10] [rowK12, rowL1]).2.1 =
        ([rowK12, rowL1].filter (fun r => !((keysOf [rowK10]).contains r.key))).length ∧
      (appendMerge [rowK10] [rowK12, rowL1]).2.2.1 = 0 ∧
      (appendMerge [rowK10] [rowK12, rowL1]).2.2.2 =
        ([rowK12, rowL1].filter (fun r => (keysOf [rowK10]).contains r.key)).length ∧
      (∀ o ∈ [rowK10], o ∈ (appendMerge [rowK10] [rowK12, rowL1]).1) ∧
      (∀ x ∈ (appendMerge [rowK10] [rowK12, rowL1]).1,
        x ∈ [rowK10] ∨ (x ∈ [rowK12, rowL1] ∧ x.key ∉ keysOf [rowK10]))) :=
  ⟨⟨by decide, by decide⟩, C4_append_semantics [rowK10] [rowK12, rowL1] (by decide)⟩

theorem C5_insert_overwrite_cex :
    insertOverwriteMerge [rowK10] [rowL1, rowL2] = ([rowK10, rowL2], 2, 0, 0) ∧
    rowL1 ∉ [rowK10, rowL2] := by
  refine ⟨by decide, by decide⟩

/-- C5 (amended): under INSERT_OVERWRITE with an incoming batch whose
pk-strings are pairwise distinct (and an existing row set), the merged
result is exactly the existing rows whose pk-string does not appear in
the incoming batch, unchanged and in order, followed by the entire
incoming batch; inserted equals the incoming row count and updated and
skipped are 0 — a windowed replace, not a truncate.  The distinctness
restriction is forced by the counterexample: with duplicated incoming
keys only the last occurrence of each key survives, so the entire batch
is not retained. -/
theorem C5_insert_overwrite :
    ∀ (df_old df_new : List Row),
      (keysOf df_old).Nodup →
      (keysOf df_new).Nodup →
      insertOverwriteMerge df_old df_new =
        (df_old.filter (fun r => !((keysOf df_new).contains r.key)) ++ df_new,
          df_new.length, 0, 0) := by
  intro df_old df_new hold hnew
  by_cases he : df_old.isEmpty
  · have hoe : df_old = [] := by simpa [List.isEmpty_iff] using he
    subst hoe
    simp [insertOverwriteMerge]
  · unfold insertOverwriteMerge
    rw [if_neg (by simpa using he)]
    dsimp only
    have hnd : (keysOf (df_old.filter (fun r => !((keysOf df_new).contains r.key)) ++
        df_new)).Nodup := by
      refine nodup_keysOf_append (nodup_keysOf_filter _ hold) hnew ?_
      intro k hk1 hk2
      obtain ⟨r, hr, hp, hkey⟩ := mem_keysOf_filter.mp hk1
      rw [Bool.not_eq_true'] at hp
      rw [← hkey] at hk2
      exact absurd (contains_keysOf.mpr hk2) (by rw [hp]; exact Bool.false_ne_true)
    rw [dedupKeepLast_eq_self hnd]

theorem C5_insert_overwrite_witness :
    ((keysOf [rowK10, rowL1]).Nodup ∧ (keysOf [rowK12]).Nodup) ∧
    insertOverwriteMerge [rowK10, rowL1] [rowK12] =
      ([rowK10, rowL1].filter (fun r => !((keysOf [rowK12]).contains r.key)) ++ [rowK12],
        [rowK12].length, 0, 0) :=
  ⟨⟨by decide, by decide⟩, C5_insert_overwrite [rowK10, rowL1] [rowK12] (by decide) (by decide)⟩

/-- C6: evaluation at the failing input.  When the partition does not yet
exist (empty existing frame), all three merge functions return the
incoming batch as-is, skipping drop_duplicates, so a batch with a
duplicated primary key is persisted with both rows: the claimed
no-duplicate-keys invariant is violated by the code. -/
theorem C6_duplicate_keys_persist :
    upsertMerge [] [rowL1, rowL2] = .ok ([rowL1, rowL2], 2, 0, 0) ∧
    appendMerge [] [rowL1, rowL2] = ([rowL1, rowL2], 2, 0, 0) ∧
    insertOverwriteMerge [] [rowL1, rowL2] = ([rowL1, rowL2], 2, 0, 0) ∧
    ¬(keysOf [rowL1, rowL2]).Nodup := by
  refine ⟨by decide, by decide, by decide, by decide⟩

theorem find?_append_of_isSome {α : Type} {l₁ l₂ : List α} {p : α → Bool}
    (h : (l₁.find? p).isSome) : (l₁ ++ l₂).find? p = l₁.find? p := by
  obtain ⟨a, ha⟩ := Option.isSome_iff_exists.mp h
  rw [List.find?_append, ha]
  rfl

theorem find?_append_of_none {α : Type} {l₁ l₂ : List α} {p : α → Bool}
    (h : l₁.find? p = none) : (l₁ ++ l₂).find? p = l₂.find? p := by
  rw [List.find?_append, h]
  rfl

theorem find?_reverse_some {df : List Row} {k : String} (h : k ∈ keysOf df) :
    (df.reverse.find? (fun r => r.key == k)).isSome := by
  rw [List.find?_isSome]
  obtain ⟨r, hr, hkey⟩ := mem_keysOf.mp h
  exact ⟨r, List.mem_reverse.mpr hr, by simp [hkey]⟩

theorem C7_last_wins_cex :
    appendMerge [rowK10] [rowL1, rowL2] = ([rowK10, rowL1], 2, 0, 0) ∧
    rowL2 ∉ [rowK10, rowL1] ∧ rowL1.key = rowL2.key ∧ rowL1 ≠ rowL2 := by
  refine ⟨by decide, by decide, by decide, by decide⟩

/-- C7 (amended): the tie-break among incoming rows sharing a pk-string
is not uniformly last-wins.  Against a non-empty existing partition:
APPEND keeps the first-occurring incoming row for each new key
(drop_duplicates keep="first"); UPSERT (when it returns) and
INSERT_OVERWRITE keep the last-occurring incoming row for each incoming
key (keep="last").  When the partition did not previously exist, no
deduplication happens at all and the batch is persisted unchanged. -/
theorem C7_tie_break :
    (∀ (df_old df_new : List Row) (k : String), k ∉ keysOf df_old →
      ((appendMerge df_old df_new).1).find? (fun r => r.key == k) =
        df_new.find? (fun r => r.key == k)) ∧
    (∀ (df_old df_new m : List Row) (i u s : Nat) (k : String), df_old ≠ [] →
      upsertMerge df_old df_new = .ok (m, i, u, s) → k ∈ keysOf df_new →
      m.find? (fun r => r.key == k) = df_new.reverse.find? (fun r => r.key == k)) ∧
    (∀ (df_old df_new : List Row) (k : String), df_old ≠ [] → k ∈ keysOf df_new →
      ((insertOverwriteMerge df_old df_new).1).find? (fun r => r.key == k) =
        df_new.reverse.find? (fun r => r.key == k)) ∧
    (∀ df_new : List Row,
      upsertMerge [] df_new = .ok (df_new, df_new.length, 0, 0) ∧
      appendMerge [] df_new = (df_new, df_new.length, 0, 0) ∧
      insertOverwriteMerge [] df_new = (df_new, df_new.length, 0, 0)) := by
  refine ⟨?_, ?_, ?_, ?_⟩
  · intro df_old df_new k hk
    by_cases he : df_old.isEmpty
    · have hoe : df_old = [] := by simpa [List.isEmpty_iff] using he
      subst hoe
      rfl
    · unfold appendMerge
      rw [if_neg (by simpa using he)]
      dsimp only
      rw [dedupKeepFirst, find?_dedupKeepFirstAux (List.not_mem_nil k)]
      have hold_none : df_old.find? (fun r => r.key == k) = none := by
        rw [List.find?_eq_none]
        intro x hx
        simp only [beq_iff_eq]
        intro hxk
        exact hk (mem_keysOf.mpr ⟨x, hx, hxk⟩)
      rw [find?_append_of_none hold_none]
      apply find?_filter
      intro x hq
      rw [beq_iff_eq] at hq
      rw [Bool.not_eq_true']
      rw [Bool.eq_false_iff]
      intro hc
      exact hk (hq ▸ contains_keysOf.mp hc)
  · intro df_old df_new m i u s k hne h hkn
    have he : ¬df_old.isEmpty := by simpa [List.isEmpty_iff] using hne
    unfold upsertMerge at h
    rw [if_neg (by simpa using he)] at h
    dsimp only at h
    split at h
    · cases h
    · cases h
      rw [find?_dedupKeepLast, List.reverse_append, List.reverse_append]
      by_cases hc : k ∈ keysOf df_old
      · have hins_none : (df_new.filter
            (fun r => !((keysOf df_old).contains r.key))).reverse.find?
              (fun r => r.key == k) = none := by
          rw [List.find?_eq_none]
          intro x hx
          obtain ⟨hxn, hxp⟩ := List.mem_filter.mp (List.mem_reverse.mp hx)
          simp only [beq_iff_eq]
          intro hxk
          rw [Bool.not_eq_true'] at hxp
          exact absurd (contains_keysOf.mpr (hxk ▸ hc))
            (by rw [hxp]; exact Bool.false_ne_true)
        rw [find?_append_of_none hins_none]
        have heq : (df_new.filter
            (fun r => (keysOf df_old).contains r.key)).reverse.find?
              (fun r => r.key == k) =
            df_new.reverse.find? (fun r => r.key == k) := by
          rw [← List.filter_reverse]
          apply find?_filter
          intro x hq
          rw [beq_iff_eq] at hq
          exact contains_keysOf.mpr (hq ▸ hc)
        rw [find?_append_of_isSome (by rw [heq]; exact find?_reverse_some hkn), heq]
      · have heq : (df_new.filter
            (fun r => !((keysOf df_old).contains r.key))).reverse.find?
              (fun r => r.key == k) =
            df_new.reverse.find? (fun r => r.key == k) := by
          rw [← List.filter_reverse]
          apply find?_filter
          intro x hq
          rw [beq_iff_eq] at hq
          rw [Bool.not_eq_true', Bool.eq_false_iff]
          intro hcc
          exact hc (hq ▸ contains_keysOf.mp hcc)
        rw [find?_append_of_isSome (by rw [heq]; exact find?_reverse_some hkn), heq]
  · intro df_old df_new k hne hkn
    have he : ¬df_old.isEmpty := by simpa [List.isEmpty_iff] using hne
    unfold insertOverwriteMerge
    rw [if_neg (by simpa using he)]
    dsimp only
    rw [find?_dedupKeepLast, List.reverse_append]
    rw [find?_append_of_isSome (find?_reverse_some hkn)]
  · intro df_new
    refine ⟨rfl, rfl, rfl⟩

theorem C7_tie_break_witness :
    (("A||2024-01-02" ∉ keysOf [rowK10]) ∧
      ((appendMerge [rowK10] [rowL1, rowL2]).1).find?
          (fun r => r.key == "A||2024-01-02") =
        [rowL1, rowL2].find? (fun r => r.key == "A||2024-01-02")) ∧
    (([rowK10] ≠ ([] : List Row)) ∧
      upsertMerge [rowK10] [rowL1, rowL2] = .ok ([rowK10, rowL2], 2, 0, 0) ∧
      "A||2024-01-02" ∈ keysOf [rowL1, rowL2] ∧
      ([rowK10, rowL2] : List Row).find? (fun r => r.key == "A||2024-01-02") =
        [rowL1, rowL2].reverse.find? (fun r => r.key == "A||2024-01-02")) ∧
    (((insertOverwriteMerge [rowK10] [rowL1, rowL2]).1).find?
          (fun r => r.key == "A||2024-01-02") =
        [rowL1, rowL2].reverse.find? (fun r => r.key == "A||2024-01-02")) ∧
    (upsertMerge [] [rowL1] = .ok ([rowL1], 1, 0, 0) ∧
      appendMerge [] [rowL1] = ([rowL1], 1, 0, 0) ∧
      insertOverwriteMerge [] [rowL1] = ([rowL1], 1, 0, 0)) :=
  ⟨⟨by decide,
    C7_tie_break.1 [rowK10] [rowL1, rowL2] "A||2024-01-02" (by decide)⟩,
   ⟨by decide, by decide, by decide,
    C7_tie_break.2.1 [rowK10] [rowL1, rowL2] [rowK10, rowL2] 2 0 0 "A||2024-01-02"
      (by decide) (by decide) (by decide)⟩,
   C7_tie_break.2.2.1 [rowK10] [rowL1, rowL2] "A||2024-01-02" (by decide) (by decide),
   C7_tie_break.2.2.2 [rowL1]⟩
